import Mathlib

/-!
Verification of the HEAT 3D-plasma heat-flux core (`source/plasma3DClass.py`).

The development shallowly embeds the two classes `plasma3D` (field-line trace
driver) and `heatflux3D` (heat-flux model) together with the module-level
functions `Tprofile` and `eich_profile`.

Modelling conventions:
* Numeric arrays from the tracer output (`psimin`, `Lc`) are `List ℚ`: every
  IEEE double is a rational, and the mask logic only compares them.  Model
  formulas (exp, tanh, erfc, power laws, integration) live in `ℝ`.
* External library calls that are not part of this repository are parameters:
  `erfc` (scipy.special.erfc), `simps` (scipy.integrate.simps), `mapR`
  (the `map_R_psi` midplane spline built by scipy from the equilibrium
  collaborator), and `fT` (the resolved temperature-profile interpolant).
  Theorems quantify over them, so they hold in particular for scipy's
  implementations.
* Python functions that return normally on every path are embedded as total
  functions; a file that may be absent is an `Option` argument.
-/

namespace HEAT

/-! ## plasma3D: tracer result parsing (`readLaminar`, lines 291-306) -/

/-- State of a `plasma3D` instance relevant to result parsing: the submitted
points (only their count matters here) and the stored trace result. -/
structure PlasmaState where
  R : List ℚ
  Lc : List ℚ
  psimin : List ℚ
deriving DecidableEq

/-- Column 3 (0-indexed) of a result row: `lamdata[:,3]`, the connection
length `Lc`. -/
def rowLc (r : List ℚ) : ℚ := r.getD 3 0

/-- Column 4 (0-indexed) of a result row: `lamdata[:,4]`, `psimin`. -/
def rowPsimin (r : List ℚ) : ℚ := r.getD 4 0

/-- `plasma3D.readLaminar`: if the file `lam_<tag>.dat` exists (`some rows`),
store columns 3 and 4 as `Lc` and `psimin`; if it is missing (`none`), the
code prints a message and returns, leaving the prior state intact.  The
Python function returns normally on both paths (it contains no `raise`), so
the embedding is a total function. -/
def readLaminar (file : Option (List (List ℚ))) (st : PlasmaState) : PlasmaState :=
  match file with
  | none => st
  | some rows => { st with Lc := rows.map rowLc, psimin := rows.map rowPsimin }

/-! ## plasma3D: recovery strategy (`wait2finish`, lines 417-429)

`wait2finish` waits for the external process, then checks `isComplete()`;
on failure it restarts the tracer and recursively calls itself.  We model a
run of the recovery strategy by the sequence of outcomes of the successive
`isComplete()` checks.  The value is the number of restarts performed before
the first successful check, `none` if no check in the (finite) observation
ever succeeds (the code would still be looping/restarting). -/

/-- Number of tracer restarts performed by `wait2finish`, as a function of
the outcomes of the successive `isComplete()` checks. -/
def wait2finishRestarts : List Bool → Option ℕ
  | [] => none
  | c :: rest => if c then some 0 else (wait2finishRestarts rest).map (· + 1)

/-! ## heatflux3D: masks (`isGoodPoint` lines 662-671, `isPFR` lines 674-683) -/

/-- `heatflux3D.isGoodPoint`: mask of ones with `False` where
`psimin == 10` (the tracer's non-convergence sentinel). -/
def isGoodPoint (psimin : List ℚ) : List Bool :=
  psimin.map (fun p => decide (p ≠ 10))

/-- `heatflux3D.isPFR`: mask of zeros with `True` where
`(psimin < 1) & (Lc < Lcmin)`. -/
def isPFR (psimin Lc : List ℚ) (Lcmin : ℚ) : List Bool :=
  List.zipWith (fun p l => decide (p < 1 ∧ l < Lcmin)) psimin Lc

end HEAT

namespace HEAT

/-! ## Theorems: parsing, recovery, masks -/

/-- Concrete prior state with two submitted points and no stored result. -/
def stMismatch : PlasmaState := { R := [2, 3], Lc := [], psimin := [] }

/-- A result file with three data rows (five whitespace columns each). -/
def rowsThree : List (List ℚ) := [[0, 0, 0, 1, 2], [0, 0, 0, 3, 4], [0, 0, 0, 5, 6]]

/-- C7 counterexample: with two submitted points and a three-row result file,
`readLaminar` does *not* reject the result: it changes the stored state,
storing `Lc`/`psimin` arrays of length 3 that are not aligned with the two
submitted points.  This refutes the claim that a point-count mismatch is
rejected outright with nothing stored. -/
theorem readLaminar_mismatch_stored :
    rowsThree.length ≠ stMismatch.R.length ∧
    readLaminar (some rowsThree) stMismatch ≠ stMismatch ∧
    (readLaminar (some rowsThree) stMismatch).psimin.length ≠ stMismatch.R.length := by
  decide

/-- C7 (amended): `readLaminar` performs no point-count validation at all:
whenever the result file exists it stores column 3 as `Lc` and column 4 as
`psimin` for *all* rows of the file, whatever the number of previously
submitted points; a mismatch is stored silently. -/
theorem readLaminar_stores_all_rows (rows : List (List ℚ)) (st : PlasmaState) :
    (readLaminar (some rows) st).Lc = rows.map rowLc ∧
    (readLaminar (some rows) st).psimin = rows.map rowPsimin ∧
    (readLaminar (some rows) st).psimin.length = rows.length := by
  simp [readLaminar]

/-- Concrete prior state holding a previously parsed result. -/
def stPrior : PlasmaState := { R := [2], Lc := [7], psimin := [8] }

/-- C8 counterexample: when the result file is missing, `readLaminar` does
*not* fail with a ParseError: it returns normally with the prior state
(including the previously stored `Lc` and `psimin`) completely intact.  The
Python function has no `raise` on this path; it only prints a message. -/
theorem readLaminar_missing_no_error :
    readLaminar none stPrior = stPrior ∧ (readLaminar none stPrior).psimin = [8] := by
  decide

/-- C8 (amended): when `lam_<tag>.dat` is missing, `readLaminar` logs a
message and returns normally, leaving the prior `Lc`/`psimin` intact (no
exception); when the file exists, 0-indexed columns 3 and 4 of the
whitespace-delimited table map to `Lc` and `psimin` respectively. -/
theorem readLaminar_missing_and_columns (st : PlasmaState) (rows : List (List ℚ)) :
    readLaminar none st = st ∧
    (readLaminar (some rows) st).Lc = rows.map (fun r => r.getD 3 0) ∧
    (readLaminar (some rows) st).psimin = rows.map (fun r => r.getD 4 0) := by
  refine ⟨rfl, ?_, ?_⟩ <;> simp [readLaminar, rowLc, rowPsimin]

/-- C9 counterexample: a recovery in which the first two `isComplete()`
checks fail and the third succeeds performs **two** restarts, contradicting
the claim that at most one restart is launched within one recovery.
(`wait2finish` calls itself recursively after each restart.) -/
theorem wait2finish_two_restarts :
    wait2finishRestarts [false, false, true] = some 2 ∧ ¬(2 ≤ 1) := by
  decide

/-- C9 (amended): `wait2finish` performs one restart per failed
`isComplete()` check and then recurses, so the number of restarts within one
recovery equals the number of failed checks before the first success —
unbounded, with no fatal propagation of the failure. -/
theorem wait2finish_unbounded_restarts (n : ℕ) :
    wait2finishRestarts (List.replicate n false ++ [true]) = some n := by
  induction n with
  | zero => rfl
  | succ k ih => simp [List.replicate_succ, wait2finishRestarts, ih]

/-- C3: on the scenario `psimin = [0.9, 1.0, 10, 1.05]`,
`Lc = [0.05, 0.2, 0.01, 0.3]`, `Lcmin = 0.075`, the good mask is
`[T,T,F,T]` and the PFR mask is `[T,F,F,F]`. -/
theorem masks_scenario :
    isGoodPoint [(0.9 : ℚ), 1.0, 10, 1.05] = [true, true, false, true] ∧
    isPFR [(0.9 : ℚ), 1.0, 10, 1.05] [(0.05 : ℚ), 0.2, 0.01, 0.3] 0.075 =
      [true, false, false, false] := by
  constructor <;> simp [isGoodPoint, isPFR] <;> norm_num

/-- C10: the PFR mask implies the good mask: any index flagged PFR
(`psimin < 1 ∧ Lc < Lcmin`) has `psimin ≠ 10`, hence is also flagged good. -/
theorem pfr_implies_good (psimin Lc : List ℚ) (Lcmin : ℚ) (i : ℕ)
    (h : (isPFR psimin Lc Lcmin)[i]? = some true) :
    (isGoodPoint psimin)[i]? = some true := by
  unfold isPFR at h
  rcases List.getElem?_zipWith_eq_some.mp h with ⟨p, l, hp, hl, hf⟩
  have hcond : p < 1 ∧ l < Lcmin := of_decide_eq_true hf
  have hne : p ≠ 10 := ne_of_lt (lt_trans hcond.1 (by norm_num))
  unfold isGoodPoint
  simp [hp, hne]

/-- C10 witness: at `psimin = [0]`, `Lc = [0]`, `Lcmin = 1`, index 0 is PFR
and the theorem yields that it is good. -/
theorem pfr_implies_good_witness :
    (isPFR [(0 : ℚ)] [(0 : ℚ)] 1)[0]? = some true ∧
    (isGoodPoint [(0 : ℚ)])[0]? = some true :=
  ⟨by decide, pfr_implies_good [(0 : ℚ)] [(0 : ℚ)] 1 0 (by decide)⟩

/-! ## Module-level profile functions (`Tprofile` lines 1050-1069,
`eich_profile` lines 1099-1122) -/

/-- The pedestal shape `f` of `Tprofile` (the local lambda at line 1063):
`f(x) = 0.5*tanh(2*(xs - x)/dw) + 2*exp(-x*2)` with `xs = 0.975`,
`dw = 0.04`. -/
noncomputable def gPed (x : ℝ) : ℝ :=
  0.5 * Real.tanh (2 * (0.975 - x) / 0.04) + 2 * Real.exp (-x * 2)

/-- `Tprofile(psi, Tped)` (deriv = False): `T0*(f(psi) - f(1.2))` with
`T0 = Tped/(f(xs - dw) - f(1.2))`. -/
noncomputable def Tprofile (psi Tped : ℝ) : ℝ :=
  Tped / (gPed (0.975 - 0.04) - gPed 1.2) * (gPed psi - gPed 1.2)

/-- The second return value of `Tprofile(psi, Tped, deriv = True)`:
`dT = -T0/dw*(1 - tanh(2*(xs - psi)/dw)**2) - T0*4*exp(-psi*2)`. -/
noncomputable def TprofileDeriv (psi Tped : ℝ) : ℝ :=
  -(Tped / (gPed (0.975 - 0.04) - gPed 1.2)) / 0.04 *
      (1 - Real.tanh (2 * (0.975 - psi) / 0.04) ^ 2) -
    Tped / (gPed (0.975 - 0.04) - gPed 1.2) * 4 * Real.exp (-psi * 2)

/-- `eich_profile(s, lq, S, s0, q0, qBG, fx)`: scipy's `erfc` is an external
library function, passed as a parameter.  `lq` and `S` are converted from mm
to m, then `a = lq*fx`, `b = 0.5*S/lq`, `c = S*fx`, and the value is
`0.5*q0*exp(b**2 - (s-s0)/a)*erfc(b - (s-s0)/c) + qBG`. -/
noncomputable def eich_profile (erfc : ℝ → ℝ) (s lq S s0 q0 qBG fx : ℝ) : ℝ :=
  let lqm := lq * 1e-3
  let Sm := S * 1e-3
  let a := lqm * fx
  let b := 0.5 * Sm / lqm
  let c := Sm * fx
  0.5 * q0 * Real.exp (b ^ 2 - (s - s0) / a) * erfc (b - (s - s0) / c) + qBG

/-- Derivative of the real hyperbolic tangent (not in this Mathlib
snapshot): `tanh x` has derivative `1 - tanh x ^ 2`. -/
theorem tanh_hasDerivAt (x : ℝ) :
    HasDerivAt Real.tanh (1 - Real.tanh x ^ 2) x := by
  have hc : Real.cosh x ≠ 0 := ne_of_gt (Real.cosh_pos x)
  have h := (Real.hasDerivAt_sinh x).div (Real.hasDerivAt_cosh x) hc
  have hfun : Real.tanh = fun y => Real.sinh y / Real.cosh y :=
    funext fun y => Real.tanh_eq_sinh_div_cosh y
  rw [hfun]
  convert h using 1
  have hsq := Real.cosh_sq_sub_sinh_sq x
  show 1 - (Real.sinh x / Real.cosh x) ^ 2 =
    (Real.cosh x * Real.cosh x - Real.sinh x * Real.sinh x) / Real.cosh x ^ 2
  rw [div_pow]
  field_simp
  nlinarith [hsq]

/-- The sign of `tanh` is the sign of its argument (positive case). -/
theorem tanh_pos_of_pos {x : ℝ} (hx : 0 < x) : 0 < Real.tanh x := by
  rw [Real.tanh_eq_sinh_div_cosh]
  exact div_pos (Real.sinh_pos_iff.mpr hx) (Real.cosh_pos x)

/-- The normalisation denominator `f(xs - dw) - f(1.2)` of `Tprofile` is
strictly positive. -/
theorem gPed_denom_pos : 0 < gPed (0.975 - 0.04) - gPed 1.2 := by
  have harg1 : (2 : ℝ) * (0.975 - (0.975 - 0.04)) / 0.04 = 2 := by norm_num
  have harg2 : (2 : ℝ) * (0.975 - 1.2) / 0.04 = -(45 / 4) := by norm_num
  have ht1 : 0 < Real.tanh 2 := tanh_pos_of_pos (by norm_num)
  have ht2 : Real.tanh (-(45 / 4) : ℝ) < 0 := by
    rw [Real.tanh_neg]
    have := tanh_pos_of_pos (show (0 : ℝ) < 45 / 4 by norm_num)
    linarith
  have he : Real.exp (-(1.2 : ℝ) * 2) < Real.exp (-(0.975 - 0.04 : ℝ) * 2) :=
    Real.exp_lt_exp.mpr (by norm_num)
  unfold gPed
  rw [harg1, harg2]
  linarith

/-- C5: the scalar-pedestal fallback.  `Tprofile(psi, Tped)` is
`T0n*(g(psi) - g(1.2))` for the pedestal shape `g = gPed`; the normalisation
constant is such that the profile's value at `psi = 0.975 - 0.04` is exactly
`Tped`; and the second return value of the `deriv = True` variant is the true
derivative of the profile (the analytic `T0n*g'(psi)`). -/
theorem Tprofile_spec (psi Tped : ℝ) :
    Tprofile psi Tped =
      Tped / (gPed (0.975 - 0.04) - gPed 1.2) * (gPed psi - gPed 1.2) ∧
    Tprofile (0.975 - 0.04) Tped = Tped ∧
    HasDerivAt (fun p => Tprofile p Tped) (TprofileDeriv psi Tped) psi := by
  refine ⟨rfl, ?_, ?_⟩
  · unfold Tprofile
    exact div_mul_cancel₀ Tped (ne_of_gt gPed_denom_pos)
  · have hu : HasDerivAt (fun p : ℝ => 2 * (0.975 - p) / 0.04)
        (2 * (-1) / 0.04) psi := by
      simpa using (((hasDerivAt_id psi).const_sub 0.975).const_mul 2).div_const 0.04
    have htanh : HasDerivAt (fun p : ℝ => Real.tanh (2 * (0.975 - p) / 0.04))
        ((1 - Real.tanh (2 * (0.975 - psi) / 0.04) ^ 2) * (2 * (-1) / 0.04)) psi :=
      (tanh_hasDerivAt (2 * (0.975 - psi) / 0.04)).comp psi hu
    have hv : HasDerivAt (fun p : ℝ => -p * 2) (-1 * 2) psi := by
      simpa using ((hasDerivAt_id psi).neg.mul_const 2)
    have hexp : HasDerivAt (fun p : ℝ => Real.exp (-p * 2))
        (Real.exp (-psi * 2) * (-1 * 2)) psi :=
      (Real.hasDerivAt_exp (-psi * 2)).comp psi hv
    have hg : HasDerivAt gPed
        (0.5 * ((1 - Real.tanh (2 * (0.975 - psi) / 0.04) ^ 2) * (2 * (-1) / 0.04)) +
          2 * (Real.exp (-psi * 2) * (-1 * 2))) psi :=
      (htanh.const_mul 0.5).add (hexp.const_mul 2)
    have hT : HasDerivAt (fun p => Tprofile p Tped)
        (Tped / (gPed (0.975 - 0.04) - gPed 1.2) *
          (0.5 * ((1 - Real.tanh (2 * (0.975 - psi) / 0.04) ^ 2) * (2 * (-1) / 0.04)) +
            2 * (Real.exp (-psi * 2) * (-1 * 2)))) psi := by
      unfold Tprofile
      exact (hg.sub_const (gPed 1.2)).const_mul _
    convert hT using 1
    unfold TprofileDeriv
    ring

/-- C6: with `fx = 1` (the value used by `set_layer`), `eich_profile`
returns exactly `0.5*q0*exp(b^2 - (s-s0)/a)*erfc(b - (s-s0)/c) + qBG` with
`a = lq` and `c = S` converted from mm to m and `b = 0.5*S/lq` (the mm→m
conversion cancels in the ratio `b`). -/
theorem eich_profile_spec (erfc : ℝ → ℝ) (s lq S s0 q0 qBG : ℝ) :
    eich_profile erfc s lq S s0 q0 qBG 1 =
      0.5 * q0 * Real.exp ((0.5 * S / lq) ^ 2 - (s - s0) / (lq * 1e-3)) *
          erfc (0.5 * S / lq - (s - s0) / (S * 1e-3)) + qBG := by
  have hb : 0.5 * (S * 1e-3) / (lq * 1e-3) = 0.5 * S / lq := by
    rw [show (0.5 : ℝ) * (S * 1e-3) = 0.5 * S * 1e-3 by ring,
      mul_div_mul_right _ _ (by norm_num : (1e-3 : ℝ) ≠ 0)]
  simp only [eich_profile, mul_one, hb]

/-! ## heatflux3D: deposition models and power-balance scaling

Numeric helpers translating the numpy primitives used by the class. -/

/-- `np.linspace a b n`: `n` evenly spaced points from `a` to `b`. -/
noncomputable def linspace (a b : ℝ) (n : ℕ) : List ℝ :=
  (List.range n).map (fun i => a + i * (b - a) / (n - 1))

/-- `np.max` of a (nonempty) array; `0` for the empty list. -/
noncomputable def listMax : List ℝ → ℝ
  | [] => 0
  | h :: t => t.foldl max h

/-- Accumulator for `np.argmax`: current position, best position, best value. -/
noncomputable def idxOfMaxAux : List ℝ → ℕ → ℕ → ℝ → ℕ
  | [], _, b, _ => b
  | v :: t, cur, b, bv =>
      if bv < v then idxOfMaxAux t (cur + 1) cur v else idxOfMaxAux t (cur + 1) b bv

/-- `np.argmax`: index of the first maximal entry (`0` for the empty list). -/
noncomputable def idxOfMax : List ℝ → ℕ
  | [] => 0
  | v :: t => idxOfMaxAux t 1 0 v

/-- Accumulator for `np.argmin`. -/
noncomputable def idxOfMinAux : List ℝ → ℕ → ℕ → ℝ → ℕ
  | [], _, b, _ => b
  | v :: t, cur, b, bv =>
      if v < bv then idxOfMinAux t (cur + 1) cur v else idxOfMinAux t (cur + 1) b bv

/-- `np.argmin`: index of the first minimal entry (`0` for the empty list). -/
noncomputable def idxOfMin : List ℝ → ℕ
  | [] => 0
  | v :: t => idxOfMinAux t 1 0 v

/-- `np.mean` (sum divided by length; `0/0 = 0` for an empty array, where
numpy would produce NaN). -/
noncomputable def meanList (l : List ℝ) : ℝ := l.sum / l.length

/-- Boolean-mask assignment `q[mask] = sub`: replace the entries of `q` at
the `true` positions of `mask` by the entries of `sub`, in order. -/
def scatterMasked {α : Type} : List α → List Bool → List α → List α
  | q :: qs, m :: ms, sub =>
      if m then sub.headD q :: scatterMasked qs ms sub.tail
      else q :: scatterMasked qs ms sub
  | qs, _, _ => qs

/-- Boolean-mask selection `l[mask]`: the entries of `l` at the `true`
positions of `mask`. -/
def maskSelect {α : Type} (l : List α) (m : List Bool) : List α :=
  (l.zip m).filterMap (fun x => if x.2 then some x.1 else none)

/-- Elementwise embedding of a rational array into `ℝ`. -/
noncomputable def ratCastList (l : List ℚ) : List ℝ := l.map (fun p => Rat.cast p)

/-- The unit-conversion factor `(1e+3)**3.5/1e+6` of `getq_conduct` /
`scale_conduct` (keV→eV raised to the 7/2 power, W→MW). -/
noncomputable def convFactor : ℝ := (1e3 : ℝ) ^ (3.5 : ℝ) / 1e6

/-! `heatflux3D.set_layer` (lines 857-895), split into its intermediate
arrays.  `mapR` is the `map_R_psi` midplane spline (an external scipy
interpolant of the equilibrium collaborator), `erfc` is scipy's. -/

/-- The reference strike-line position `s0` of `set_layer`:
`map_R_psi(lcfs)` when `lobes`, else `map_R_psi(1.0)`. -/
noncomputable def set_layer_s0 (mapR : ℝ → ℝ) (lcfs : ℝ) (lobes : Bool) : ℝ :=
  if lobes then mapR lcfs else mapR 1.0

/-- The dense 10000-point mapped sample grid `s` of `set_layer`, spanning
`[lcfs-0.05, lcfs+0.1]` (lobes) or `[0.95, 1.1]`. -/
noncomputable def set_layer_sgrid (mapR : ℝ → ℝ) (lcfs : ℝ) (lobes : Bool) : List ℝ :=
  if lobes then (linspace (lcfs - 0.05) (lcfs + 0.1) 10000).map mapR
  else (linspace 0.95 1.1 10000).map mapR

/-- The reference Eich shape `qref` of `set_layer` on the sample grid. -/
noncomputable def set_layer_qref (mapR erfc : ℝ → ℝ) (lq S lcfs : ℝ)
    (lobes : Bool) : List ℝ :=
  (set_layer_sgrid mapR lcfs lobes).map
    (fun s => eich_profile erfc s lq S (set_layer_s0 mapR lcfs lobes) 1 0 1)

/-- `smax = s[argmax(qref)]`, the peak position of the reference shape. -/
noncomputable def set_layer_smax (mapR erfc : ℝ → ℝ) (lq S lcfs : ℝ)
    (lobes : Bool) : ℝ :=
  (set_layer_sgrid mapR lcfs lobes).getD
    (idxOfMax (set_layer_qref mapR erfc lq S lcfs lobes)) 0

/-- `qmax = qref[argmax(qref)]`, the peak amplitude of the reference shape. -/
noncomputable def set_layer_qmax (mapR erfc : ℝ → ℝ) (lq S lcfs : ℝ)
    (lobes : Bool) : ℝ :=
  (set_layer_qref mapR erfc lq S lcfs lobes).getD
    (idxOfMax (set_layer_qref mapR erfc lq S lcfs lobes)) 0

/-- The re-centred profile anchor `x0`: after the HFS sign mirroring,
`x0 = smax` (HFS) or `x0 = s0 - (smax - s0)` (LFS). -/
noncomputable def set_layer_x0 (mapR erfc : ℝ → ℝ) (lq S lcfs : ℝ)
    (lobes HFS : Bool) : ℝ :=
  if HFS then -(set_layer_smax mapR erfc lq S lcfs lobes)
  else set_layer_s0 mapR lcfs lobes -
    (set_layer_smax mapR erfc lq S lcfs lobes - set_layer_s0 mapR lcfs lobes)

/-- The unnormalized point-wise profile `q` of `set_layer` after the lobes
clamp `q[psi < lcfs] = qmax`. -/
noncomputable def set_layer_qc (mapR erfc : ℝ → ℝ) (psi : List ℝ)
    (lq S lcfs : ℝ) (lobes HFS : Bool) : List ℝ :=
  let x := psi.map mapR
  let x' := if HFS then x.map (fun t => -t) else x
  let q := x'.map (fun xi =>
    eich_profile erfc xi lq S (set_layer_x0 mapR erfc lq S lcfs lobes HFS) 1 0 1)
  if lobes then
    List.zipWith (fun p qi =>
      if p < lcfs then set_layer_qmax mapR erfc lq S lcfs lobes else qi) psi q
  else q

/-- `heatflux3D.set_layer`: returns `(q/q.max()*q0, qsep/q.max()*q0)`. -/
noncomputable def set_layer (mapR erfc : ℝ → ℝ) (psi : List ℝ)
    (lq S lcfs q0 : ℝ) (lobes HFS : Bool) : List ℝ × ℝ :=
  let qc := set_layer_qc mapR erfc psi lq S lcfs lobes HFS
  let m := listMax qc
  let xsep := if HFS then -(mapR 1.0) else mapR 1.0
  let qsep := eich_profile erfc xsep lq S
    (set_layer_x0 mapR erfc lq S lcfs lobes HFS) 1 0 1
  (qc.map (fun v => v / m * q0), qsep / m * q0)

/-- `heatflux3D.getq_layer` (lines 847-854): Eich layer profile with lobes
over the trace points, with the PFR points re-evaluated by a second
`set_layer` call anchored at the first call's separatrix value. -/
noncomputable def getq_layer (mapR erfc : ℝ → ℝ) (psimin Lc : List ℚ)
    (Lcmin : ℚ) (lq S lcfs : ℝ) (HFS : Bool) : List ℝ :=
  let pfr := isPFR psimin Lc Lcmin
  let qq := set_layer mapR erfc (ratCastList psimin) lq S lcfs 1 true HFS
  if pfr.any id then
    scatterMasked qq.1 pfr
      (set_layer mapR erfc (ratCastList (maskSelect psimin pfr))
        lq S 1.0 qq.2 false HFS).1
  else qq.1

/-- `heatflux3D.getq_conduct` (lines 732-749) as called by `heatflux`
(`limit = True`, `T0 = 0` passed explicitly here as `T0`): conduction-limited
parallel flux `2/7*kappa/L*(T^3.5 - T0^3.5)*(1e3)^3.5/1e6`, with `T` clamped
to `fT(lcfs)` inside the LCFS and PFR points remapped to
`fT(1 + ratio*(1 - psi))` (the PFR assignment runs after the clamp, so it
wins on the overlap). -/
noncomputable def getq_conduct (fT : ℝ → ℝ) (lcfs : ℚ) (psimin : List ℚ)
    (pfr : List Bool) (kappa T0 L ratio : ℝ) : List ℝ :=
  List.zipWith (fun (p : ℚ) (b : Bool) =>
    let T : ℝ := if b then fT (1 + ratio * (1 - (p : ℝ)))
      else if (p : ℝ) < ((lcfs : ℚ) : ℝ) then fT ((lcfs : ℚ) : ℝ) else fT (p : ℝ)
    2 / 7 * kappa / L * (T ^ (3.5 : ℝ) - T0 ^ (3.5 : ℝ)) * convFactor) psimin pfr

/-- The dense normalized-flux calibration grid of `scale_conduct`:
`np.linspace(0.85, 1.2, 1000)`. -/
noncomputable def psiGridConduct : List ℝ := linspace 0.85 1.2 1000

/-- The unscaled conductive shape `q_hat` of `scale_conduct` on the
calibration grid, with the PFR half-grid (`psiN < 1`) remapped through
`fT(1 + ratio*(1 - psiN))`. -/
noncomputable def q_hatConduct (fT : ℝ → ℝ) (kappa L ratio T0 : ℝ) : List ℝ :=
  psiGridConduct.map (fun p =>
    let T : ℝ := if p < 1 then fT (1 + ratio * (1 - p)) else fT p
    2 / 7 * kappa / L * (T ^ (3.5 : ℝ) - T0 ^ (3.5 : ℝ)) * convFactor)

/-- `psi = psiN * (psiSep - psiAxis) + psiAxis`: normalized flux mapped to
physical poloidal flux. -/
noncomputable def fluxGrid (psiSep psiAxis : ℝ) (psiN : List ℝ) : List ℝ :=
  psiN.map (fun p => p * (psiSep - psiAxis) + psiAxis)

/-- The final lines shared by both scaling routines:
`if P0 < 0: P0 = -P0; q0 = P/P0`. -/
noncomputable def scaleFromIntegral (P P0 : ℝ) : ℝ :=
  P / (if P0 < 0 then -P0 else P0)

/-- `heatflux3D.scale_conduct` (lines 752-776).  `simps` is scipy's Simpson
integrator (external library), a parameter of the embedding. -/
noncomputable def scale_conduct (simps : List ℝ → List ℝ → ℝ) (fT : ℝ → ℝ)
    (psiSep psiAxis P kappa L ratio : ℝ) : ℝ :=
  let q_hat := q_hatConduct fT kappa L ratio 0
  let psi := fluxGrid psiSep psiAxis psiGridConduct
  let P0 := 2 * Real.pi * simps q_hat psi
  scaleFromIntegral P P0

/-- The unscaled layer shape `q_hat` of `scale_layer` (lines 963-977): the
laminar-file `psimin` of the midplane grid run through `set_layer` with
lobes, with the PFR side of the grid (beyond the point whose `psimin` is
nearest 1.0) re-evaluated by a PFR-anchored second `set_layer` call. -/
noncomputable def layer_qhat_mp (mapR erfc : ℝ → ℝ) (Rgrid : List ℝ)
    (lamPsimin : List ℚ) (lq S lcfs : ℝ) (HFS : Bool) : List ℝ :=
  let idx := idxOfMin (lamPsimin.map (fun p => |(p : ℝ) - 1.0|))
  let Ridx := Rgrid.getD idx 0
  let mask := Rgrid.map (fun r => if HFS then decide (Ridx < r) else decide (r < Ridx))
  let ql := set_layer mapR erfc (ratCastList lamPsimin) lq S lcfs 1 true HFS
  if mask.any id then
    scatterMasked ql.1 mask
      (set_layer mapR erfc (ratCastList (maskSelect lamPsimin mask))
        lq S 1.0 ql.2 false HFS).1
  else ql.1

/-- `heatflux3D.scale_layer` (lines 917-987): power-balance scale for the
layer model.  `Rgrid` is the dense midplane R grid built from the
equilibrium geometry, `psiNgrid` the equilibrium flux evaluated on it
(`ep.psiFunc.ev`, a collaborator), `lamPsimin` the `psimin` column of the
midplane laminar file. -/
noncomputable def scale_layer (mapR erfc : ℝ → ℝ) (simps : List ℝ → List ℝ → ℝ)
    (Rgrid psiNgrid : List ℝ) (lamPsimin : List ℚ) (lq S P lcfs : ℝ)
    (HFS : Bool) (psiSep psiAxis : ℝ) : ℝ :=
  let q_hat := layer_qhat_mp mapR erfc Rgrid lamPsimin lq S lcfs HFS
  let psi := fluxGrid psiSep psiAxis psiNgrid
  let P0 := 2 * Real.pi * simps q_hat psi
  scaleFromIntegral P P0

/-- `self.Psol = (1 - self.coreRadFrac) * self.P` (line 501). -/
noncomputable def Psol (P coreRadFrac : ℝ) : ℝ := (1 - coreRadFrac) * P

/-- The deposition model selected by `self.model` in `heatflux`. -/
inductive HFModel
  | layer
  | conduct

/-- Configuration and collaborator state of a `heatflux3D` instance as used
by `heatflux`.  Function-valued fields stand for external interpolants /
library routines (see the module docstring); `lamPsimin`, `Rgrid`,
`psiNgrid` are the midplane calibration data used by `scale_layer`. -/
structure HFConfig where
  fT : ℝ → ℝ
  erfc : ℝ → ℝ
  simps : List ℝ → List ℝ → ℝ
  mapR : ℝ → ℝ
  psimin : List ℚ
  Lc : List ℚ
  Lcmin : ℚ
  lcfs : ℚ
  lq : ℝ
  S : ℝ
  kappa : ℝ
  Ptot : ℝ
  coreRadFrac : ℝ
  powerFrac : ℝ
  qBG : ℝ
  HFS : Bool
  psiSep : ℝ
  psiAxis : ℝ
  Rgrid : List ℝ
  psiNgrid : List ℝ
  lamPsimin : List ℚ

/-- `heatflux3D.heatflux` (lines 686-729): dispatch on the model, compute
the normalized shape `q` and the power-balance scale `q0`, then assemble
`self.q`: the array is zeroed by `updateLaminarData` (line 657), only the
good entries receive `q0*q`, and `qBG` is added uniformly afterwards.  The
orientation (`HFS`) is already resolved from the divertor code. -/
noncomputable def heatflux (m : HFModel) (c : HFConfig) : List ℝ :=
  let good := isGoodPoint c.psimin
  let pfr := isPFR c.psimin c.Lc c.Lcmin
  let P := Psol c.Ptot c.coreRadFrac * c.powerFrac
  let qq0 : List ℝ × ℝ :=
    match m with
    | .layer =>
        (getq_layer c.mapR c.erfc c.psimin c.Lc c.Lcmin c.lq c.S ((c.lcfs : ℚ) : ℝ) c.HFS,
         scale_layer c.mapR c.erfc c.simps c.Rgrid c.psiNgrid c.lamPsimin
           c.lq c.S P ((c.lcfs : ℚ) : ℝ) c.HFS c.psiSep c.psiAxis)
    | .conduct =>
        let L := meanList ((c.psimin.zip c.Lc).filterMap
          (fun pl => if c.lcfs < pl.1 then some ((pl.2 : ℚ) : ℝ) else none)) * 1e3
        let ratio := c.lq / c.S
        (getq_conduct c.fT c.lcfs c.psimin pfr c.kappa 0 L ratio,
         scale_conduct c.simps c.fT c.psiSep c.psiAxis P c.kappa L ratio)
  List.zipWith (fun g qi => (if g then qq0.2 * qi else 0) + c.qBG) good qq0.1

/-! ## Structural lemmas about the pipeline -/

theorem ratCastList_length (l : List ℚ) : (ratCastList l).length = l.length := by
  simp [ratCastList]

theorem scatterMasked_length {α : Type} (q : List α) :
    ∀ (m : List Bool) (s : List α), (scatterMasked q m s).length = q.length := by
  induction q with
  | nil => intro m s; cases m <;> rfl
  | cons a t ih =>
      intro m s
      cases m with
      | nil => rfl
      | cons b ms => cases b <;> simp [scatterMasked, ih]

theorem set_layer_length (mapR erfc : ℝ → ℝ) (psi : List ℝ) (lq S lcfs q0 : ℝ)
    (lobes HFS : Bool) :
    (set_layer mapR erfc psi lq S lcfs q0 lobes HFS).1.length = psi.length := by
  unfold set_layer set_layer_qc
  cases lobes <;> cases HFS <;> simp [List.length_zipWith]

theorem getq_layer_length (mapR erfc : ℝ → ℝ) (psimin Lc : List ℚ) (Lcmin : ℚ)
    (lq S lcfs : ℝ) (HFS : Bool) :
    (getq_layer mapR erfc psimin Lc Lcmin lq S lcfs HFS).length = psimin.length := by
  unfold getq_layer
  by_cases h : (isPFR psimin Lc Lcmin).any id
  · rw [if_pos h, scatterMasked_length, set_layer_length, ratCastList_length]
  · rw [if_neg h, set_layer_length, ratCastList_length]

theorem getq_conduct_length (fT : ℝ → ℝ) (lcfs : ℚ) (psimin : List ℚ)
    (pfr : List Bool) (kappa T0 L ratio : ℝ) :
    (getq_conduct fT lcfs psimin pfr kappa T0 L ratio).length =
      min psimin.length pfr.length := by
  unfold getq_conduct
  simp [List.length_zipWith]

theorem isPFR_length (psimin Lc : List ℚ) (Lcmin : ℚ) :
    (isPFR psimin Lc Lcmin).length = min psimin.length Lc.length := by
  simp [isPFR, List.length_zipWith]

theorem isGoodPoint_length (psimin : List ℚ) :
    (isGoodPoint psimin).length = psimin.length := by
  simp [isGoodPoint]

/-- The model-shape array of `heatflux` has one entry per trace point,
whichever model is selected (the trace file supplies `psimin` and `Lc` of
equal length). -/
theorem heatflux_length (m : HFModel) (c : HFConfig)
    (hLc : c.Lc.length = c.psimin.length) :
    (heatflux m c).length = c.psimin.length := by
  cases m <;>
    simp [heatflux, List.length_zipWith, isGoodPoint_length, getq_layer_length,
      getq_conduct_length, isPFR_length, hLc]

/-- C1: a trace point with the non-convergence sentinel `psimin == 10` ends
with final flux exactly `qBG`, for either model: `isGoodPoint` marks it bad,
`heatflux` copies only good entries onto the zeros set by
`updateLaminarData`, and the uniform `qBG` addition is all it receives. -/
theorem heatflux_sentinel_qBG (m : HFModel) (c : HFConfig) (i : ℕ)
    (hLc : c.Lc.length = c.psimin.length)
    (h10 : c.psimin[i]? = some 10) :
    (heatflux m c)[i]? = some c.qBG := by
  have hi : i < c.psimin.length := (List.getElem?_eq_some.mp h10).1
  have hgood : (isGoodPoint c.psimin)[i]? = some false := by
    simp [isGoodPoint, h10]
  cases m with
  | layer =>
      have hlen : i < (getq_layer c.mapR c.erfc c.psimin c.Lc c.Lcmin c.lq c.S
          ((c.lcfs : ℚ) : ℝ) c.HFS).length := by
        rw [getq_layer_length]; exact hi
      show (List.zipWith _ (isGoodPoint c.psimin) _)[i]? = some c.qBG
      rw [List.getElem?_zipWith', hgood, List.getElem?_eq_getElem hlen]
      simp
  | conduct =>
      have hlen : i < (getq_conduct c.fT c.lcfs c.psimin
          (isPFR c.psimin c.Lc c.Lcmin) c.kappa 0
          (meanList ((c.psimin.zip c.Lc).filterMap
            (fun pl => if c.lcfs < pl.1 then some ((pl.2 : ℚ) : ℝ) else none)) * 1e3)
          (c.lq / c.S)).length := by
        rw [getq_conduct_length, isPFR_length, hLc]
        simp [hi]
      show (List.zipWith _ (isGoodPoint c.psimin) _)[i]? = some c.qBG
      rw [List.getElem?_zipWith', hgood, List.getElem?_eq_getElem hlen]
      simp

/-- Concrete single-point configuration: the only trace point carries the
sentinel `psimin = 10`; all external interpolants are the zero function and
`qBG = 5`. -/
noncomputable def cW : HFConfig :=
  { fT := fun _ => 0, erfc := fun _ => 0, simps := fun _ _ => 0, mapR := fun _ => 0,
    psimin := [10], Lc := [0], Lcmin := 1, lcfs := 0.97, lq := 1, S := 1,
    kappa := 0, Ptot := 0, coreRadFrac := 0, powerFrac := 0, qBG := 5,
    HFS := false, psiSep := 0, psiAxis := 0, Rgrid := [], psiNgrid := [],
    lamPsimin := [] }

/-- C1 witness: on `cW` (one point, `psimin = 10`, conductive model) the
final flux at index 0 is exactly `qBG`. -/
theorem heatflux_sentinel_qBG_witness :
    cW.psimin[0]? = some 10 ∧ (heatflux HFModel.conduct cW)[0]? = some cW.qBG :=
  ⟨rfl, heatflux_sentinel_qBG HFModel.conduct cW 0 rfl rfl⟩

/-! ## Power-balance scaling (C2) -/

/-- The defensive sign correction `if P0 < 0: P0 = -P0` makes the scale an
absolute-value division. -/
theorem scaleFromIntegral_eq_abs (P x : ℝ) : scaleFromIntegral P x = P / |x| := by
  unfold scaleFromIntegral
  rcases lt_or_ge x 0 with h | h
  · rw [if_pos h, abs_of_neg h]
  · rw [if_neg (not_lt.mpr h), abs_of_nonneg h]

/-- C2: for both models, the power-balance scale `q0` equals
`targetPower / |2π * simps(q_hat, psi)|` with the grid mapped to physical
flux by `psi = psiN*(psiSep - psiAxis) + psiAxis` and
`targetPower = totalInputPower*(1 - coreRadFrac)*perPFCPowerFraction`
(`Psol*powerFrac` as passed by `heatflux`); the negation in the code is the
absolute value, applied exactly when the Simpson integral is negative. -/
theorem scale_power_balance (simps : List ℝ → List ℝ → ℝ) (fT mapR erfc : ℝ → ℝ)
    (Rgrid psiNgrid : List ℝ) (lamPsimin : List ℚ)
    (psiSep psiAxis Ptot coreRadFrac powerFrac kappa L ratio lq S lcfs : ℝ)
    (HFS : Bool) :
    scale_conduct simps fT psiSep psiAxis (Psol Ptot coreRadFrac * powerFrac)
        kappa L ratio =
      Ptot * (1 - coreRadFrac) * powerFrac /
        |2 * Real.pi * simps (q_hatConduct fT kappa L ratio 0)
          (psiGridConduct.map (fun p => p * (psiSep - psiAxis) + psiAxis))| ∧
    scale_layer mapR erfc simps Rgrid psiNgrid lamPsimin lq S
        (Psol Ptot coreRadFrac * powerFrac) lcfs HFS psiSep psiAxis =
      Ptot * (1 - coreRadFrac) * powerFrac /
        |2 * Real.pi * simps (layer_qhat_mp mapR erfc Rgrid lamPsimin lq S lcfs HFS)
          (psiNgrid.map (fun p => p * (psiSep - psiAxis) + psiAxis))| := by
  constructor
  · show scaleFromIntegral (Psol Ptot coreRadFrac * powerFrac) _ = _
    rw [scaleFromIntegral_eq_abs]
    show Psol Ptot coreRadFrac * powerFrac /
        |2 * Real.pi * simps (q_hatConduct fT kappa L ratio 0)
          (fluxGrid psiSep psiAxis psiGridConduct)| = _
    rw [show fluxGrid psiSep psiAxis psiGridConduct =
        psiGridConduct.map (fun p => p * (psiSep - psiAxis) + psiAxis) from rfl,
      show Psol Ptot coreRadFrac * powerFrac =
        Ptot * (1 - coreRadFrac) * powerFrac from by unfold Psol; ring]
  · show scaleFromIntegral (Psol Ptot coreRadFrac * powerFrac) _ = _
    rw [scaleFromIntegral_eq_abs]
    show Psol Ptot coreRadFrac * powerFrac /
        |2 * Real.pi * simps (layer_qhat_mp mapR erfc Rgrid lamPsimin lq S lcfs HFS)
          (fluxGrid psiSep psiAxis psiNgrid)| = _
    rw [show fluxGrid psiSep psiAxis psiNgrid =
        psiNgrid.map (fun p => p * (psiSep - psiAxis) + psiAxis) from rfl,
      show Psol Ptot coreRadFrac * powerFrac =
        Ptot * (1 - coreRadFrac) * powerFrac from by unfold Psol; ring]

/-! ## Nonnegativity of the flux pipeline (C4) -/

theorem le_foldl_max (t : List ℝ) : ∀ a : ℝ, a ≤ t.foldl max a := by
  induction t with
  | nil => intro a; simp
  | cons h t ih =>
      intro a
      calc a ≤ max a h := le_max_left a h
        _ ≤ t.foldl max (max a h) := ih (max a h)

theorem listMax_nonneg (l : List ℝ) (h : ∀ v ∈ l, 0 ≤ v) : 0 ≤ listMax l := by
  cases l with
  | nil => simp [listMax]
  | cons a t =>
      calc (0 : ℝ) ≤ a := h a (by simp)
        _ ≤ t.foldl max a := le_foldl_max t a

theorem getD_nonneg (l : List ℝ) (i : ℕ) (d : ℝ) (hd : 0 ≤ d)
    (h : ∀ v ∈ l, 0 ≤ v) : 0 ≤ l.getD i d := by
  rcases lt_or_ge i l.length with hi | hi
  · rw [List.getD_eq_getElem l d hi]
    exact h _ (List.getElem_mem hi)
  · have he : l.getD i d = d := by simp [List.getD, List.getElem?_eq_none hi]
    rw [he]; exact hd

/-- The Eich profile with `qBG = 0` is nonnegative whenever `erfc` is
pointwise nonnegative and the amplitude is nonnegative (the exponential
factor is positive). -/
theorem eich_nonneg (erfc : ℝ → ℝ) (herfc : ∀ x, 0 ≤ erfc x)
    (s lq S s0 q0 fx : ℝ) (hq0 : 0 ≤ q0) :
    0 ≤ eich_profile erfc s lq S s0 q0 0 fx := by
  unfold eich_profile
  exact add_nonneg
    (mul_nonneg (mul_nonneg (mul_nonneg (by norm_num) hq0) (Real.exp_pos _).le)
      (herfc _)) le_rfl

theorem headD_nonneg (s : List ℝ) (q : ℝ) (h : ∀ v ∈ s, 0 ≤ v) (hq : 0 ≤ q) :
    0 ≤ s.headD q := by
  cases s with
  | nil => exact hq
  | cons a t => exact h a (by simp)

theorem scatterMasked_nonneg (q : List ℝ) :
    ∀ (m : List Bool) (s : List ℝ), (∀ v ∈ q, 0 ≤ v) → (∀ v ∈ s, 0 ≤ v) →
      ∀ v ∈ scatterMasked q m s, 0 ≤ v := by
  induction q with
  | nil =>
      intro m s _ _ v hv
      cases m <;> simp [scatterMasked] at hv
  | cons a t ih =>
      intro m s hq hs v hv
      cases m with
      | nil => exact hq v hv
      | cons b ms =>
          cases b
          · simp only [scatterMasked, Bool.false_eq_true, if_false, List.mem_cons] at hv
            rcases hv with rfl | hv
            · exact hq v (by simp)
            · exact ih ms s (fun w hw => hq w (by simp [hw])) hs v hv
          · simp only [scatterMasked, if_true, List.mem_cons] at hv
            rcases hv with rfl | hv
            · exact headD_nonneg s a hs (hq a (by simp))
            · exact ih ms s.tail (fun w hw => hq w (by simp [hw]))
                (fun w hw => hs w (List.mem_of_mem_tail hw)) v hv

theorem zipWith_forall {α β γ : Type} (f : α → β → γ) (P : γ → Prop) :
    ∀ (l1 : List α) (l2 : List β), (∀ a ∈ l1, ∀ b ∈ l2, P (f a b)) →
      ∀ v ∈ List.zipWith f l1 l2, P v := by
  intro l1
  induction l1 with
  | nil => intro l2 _ v hv; simp at hv
  | cons a t ih =>
      intro l2 h v hv
      cases l2 with
      | nil => simp at hv
      | cons b u =>
          simp only [List.zipWith, List.mem_cons] at hv
          rcases hv with rfl | hv
          · exact h a (by simp) b (by simp)
          · exact ih u (fun x hx y hy => h x (by simp [hx]) y (by simp [hy])) v hv

theorem zipWith_forall_nonneg {α β : Type} (f : α → β → ℝ)
    (l1 : List α) (l2 : List β) (h : ∀ a ∈ l1, ∀ b ∈ l2, 0 ≤ f a b) :
    ∀ v ∈ List.zipWith f l1 l2, 0 ≤ v :=
  zipWith_forall f (fun v => 0 ≤ v) l1 l2 h

theorem set_layer_qref_nonneg (mapR erfc : ℝ → ℝ) (lq S lcfs : ℝ) (lobes : Bool)
    (herfc : ∀ x, 0 ≤ erfc x) :
    ∀ v ∈ set_layer_qref mapR erfc lq S lcfs lobes, 0 ≤ v := by
  intro v hv
  unfold set_layer_qref at hv
  rcases List.mem_map.mp hv with ⟨s, _, rfl⟩
  exact eich_nonneg erfc herfc _ _ _ _ _ _ (by norm_num)

theorem set_layer_qmax_nonneg (mapR erfc : ℝ → ℝ) (lq S lcfs : ℝ) (lobes : Bool)
    (herfc : ∀ x, 0 ≤ erfc x) :
    0 ≤ set_layer_qmax mapR erfc lq S lcfs lobes := by
  unfold set_layer_qmax
  exact getD_nonneg _ _ _ le_rfl (set_layer_qref_nonneg mapR erfc lq S lcfs lobes herfc)

theorem set_layer_qc_nonneg (mapR erfc : ℝ → ℝ) (psi : List ℝ)
    (lq S lcfs : ℝ) (lobes HFS : Bool) (herfc : ∀ x, 0 ≤ erfc x) :
    ∀ v ∈ set_layer_qc mapR erfc psi lq S lcfs lobes HFS, 0 ≤ v := by
  intro v hv
  unfold set_layer_qc at hv
  set x0 := set_layer_x0 mapR erfc lq S lcfs lobes HFS with hx0
  have hq : ∀ w ∈ ((if HFS then (psi.map mapR).map (fun t => -t) else psi.map mapR).map
      (fun xi => eich_profile erfc xi lq S x0 1 0 1)), 0 ≤ w := by
    intro w hw
    rcases List.mem_map.mp hw with ⟨xi, _, rfl⟩
    exact eich_nonneg erfc herfc _ _ _ _ _ _ (by norm_num)
  cases lobes with
  | false => exact hq v (by simpa using hv)
  | true =>
      simp only [if_true] at hv
      refine zipWith_forall_nonneg _ psi _ ?_ v hv
      intro a _ b hb
      by_cases hc : a < lcfs
      · simpa [hc] using set_layer_qmax_nonneg mapR erfc lq S lcfs true herfc
      · simpa [hc] using hq b hb

/-- Both outputs of `set_layer` are nonnegative given a pointwise
nonnegative `erfc` and a nonnegative amplitude `q0`. -/
theorem set_layer_nonneg (mapR erfc : ℝ → ℝ) (psi : List ℝ)
    (lq S lcfs q0 : ℝ) (lobes HFS : Bool)
    (herfc : ∀ x, 0 ≤ erfc x) (hq0 : 0 ≤ q0) :
    (∀ v ∈ (set_layer mapR erfc psi lq S lcfs q0 lobes HFS).1, 0 ≤ v) ∧
      0 ≤ (set_layer mapR erfc psi lq S lcfs q0 lobes HFS).2 := by
  have hqc := set_layer_qc_nonneg mapR erfc psi lq S lcfs lobes HFS herfc
  have hm : 0 ≤ listMax (set_layer_qc mapR erfc psi lq S lcfs lobes HFS) :=
    listMax_nonneg _ hqc
  constructor
  · intro v hv
    unfold set_layer at hv
    rcases List.mem_map.mp hv with ⟨w, hw, rfl⟩
    exact mul_nonneg (div_nonneg (hqc w hw) hm) hq0
  · show 0 ≤ eich_profile erfc _ lq S _ 1 0 1 /
      listMax (set_layer_qc mapR erfc psi lq S lcfs lobes HFS) * q0
    exact mul_nonneg
      (div_nonneg (eich_nonneg erfc herfc _ _ _ _ _ _ (by norm_num)) hm) hq0

theorem getq_layer_nonneg (mapR erfc : ℝ → ℝ) (psimin Lc : List ℚ)
    (Lcmin : ℚ) (lq S lcfs : ℝ) (HFS : Bool) (herfc : ∀ x, 0 ≤ erfc x) :
    ∀ v ∈ getq_layer mapR erfc psimin Lc Lcmin lq S lcfs HFS, 0 ≤ v := by
  intro v hv
  unfold getq_layer at hv
  have h1 := set_layer_nonneg mapR erfc (ratCastList psimin) lq S lcfs 1 true HFS
    herfc (by norm_num)
  by_cases h : (isPFR psimin Lc Lcmin).any id
  · rw [if_pos h] at hv
    have h2 := set_layer_nonneg mapR erfc (ratCastList (maskSelect psimin
      (isPFR psimin Lc Lcmin))) lq S 1.0
      (set_layer mapR erfc (ratCastList psimin) lq S lcfs 1 true HFS).2 false HFS
      herfc h1.2
    exact scatterMasked_nonneg _ _ _ h1.1 h2.1 v hv
  · rw [if_neg h] at hv
    exact h1.1 v hv

theorem convFactor_nonneg : 0 ≤ convFactor :=
  div_nonneg (Real.rpow_nonneg (by norm_num) _) (by norm_num)

theorem getq_conduct_nonneg (fT : ℝ → ℝ) (lcfs : ℚ) (psimin : List ℚ)
    (pfr : List Bool) (kappa L ratio : ℝ)
    (hfT : ∀ x, 0 ≤ fT x) (hkappa : 0 ≤ kappa) (hL : 0 ≤ L) :
    ∀ v ∈ getq_conduct fT lcfs psimin pfr kappa 0 L ratio, 0 ≤ v := by
  unfold getq_conduct
  refine zipWith_forall_nonneg _ psimin pfr ?_
  intro p _ b _
  have hT : (0 : ℝ) ≤ (if b then fT (1 + ratio * (1 - (p : ℝ)))
      else if (p : ℝ) < ((lcfs : ℚ) : ℝ) then fT ((lcfs : ℚ) : ℝ) else fT (p : ℝ)) := by
    split_ifs <;> exact hfT _
  have hpow : (0 : ℝ) ≤ (if b then fT (1 + ratio * (1 - (p : ℝ)))
      else if (p : ℝ) < ((lcfs : ℚ) : ℝ) then fT ((lcfs : ℚ) : ℝ) else fT (p : ℝ)) ^
        (3.5 : ℝ) - (0 : ℝ) ^ (3.5 : ℝ) := by
    rw [Real.zero_rpow (by norm_num), sub_zero]
    exact Real.rpow_nonneg hT _
  exact mul_nonneg (mul_nonneg
    (div_nonneg (mul_nonneg (by norm_num) hkappa) hL) hpow) convFactor_nonneg

theorem scaleFromIntegral_nonneg (P P0 : ℝ) (hP : 0 ≤ P) :
    0 ≤ scaleFromIntegral P P0 := by
  rw [scaleFromIntegral_eq_abs]
  exact div_nonneg hP (abs_nonneg P0)

theorem meanList_nonneg (l : List ℝ) (h : ∀ v ∈ l, 0 ≤ v) : 0 ≤ meanList l :=
  div_nonneg (List.sum_nonneg h) (Nat.cast_nonneg _)

theorem scale_layer_nonneg (mapR erfc : ℝ → ℝ) (simps : List ℝ → List ℝ → ℝ)
    (Rgrid psiNgrid : List ℝ) (lamPsimin : List ℚ) (lq S P lcfs : ℝ)
    (HFS : Bool) (psiSep psiAxis : ℝ) (hP : 0 ≤ P) :
    0 ≤ scale_layer mapR erfc simps Rgrid psiNgrid lamPsimin lq S P lcfs HFS
      psiSep psiAxis :=
  scaleFromIntegral_nonneg P _ hP

theorem scale_conduct_nonneg (simps : List ℝ → List ℝ → ℝ) (fT : ℝ → ℝ)
    (psiSep psiAxis P kappa L ratio : ℝ) (hP : 0 ≤ P) :
    0 ≤ scale_conduct simps fT psiSep psiAxis P kappa L ratio :=
  scaleFromIntegral_nonneg P _ hP

/-- The `heatflux` assembly step dominates `qBG` once the model array is
nonnegative and the scale is nonnegative: each entry is
`(if good then q0*q else 0) + qBG`. -/
theorem assemble_ge (good : List Bool) (qmod : List ℝ) (q0 qBG : ℝ)
    (hq0 : 0 ≤ q0) (hqmod : ∀ w ∈ qmod, 0 ≤ w) :
    ∀ u ∈ List.zipWith (fun g qi => (if g then q0 * qi else 0) + qBG) good qmod,
      qBG ≤ u := by
  refine zipWith_forall _ (fun u => qBG ≤ u) good qmod ?_
  intro g _ qi hqi
  have : (0 : ℝ) ≤ if g then q0 * qi else 0 := by
    cases g
    · simp
    · simpa using mul_nonneg hq0 (hqmod qi hqi)
  linarith

/-- C4: every entry of the final flux array produced by `heatflux` is at
least `qBG`, for every `psimin`/`Lc` input and both models, under the
physical admissibility of the configuration: nonnegative divertor power
share, pointwise nonnegative `erfc` (true of scipy's) and temperature
profile, nonnegative conductivity, and nonnegative connection lengths.
(Entries outside the array bounds read the default `qBG`.) -/
theorem heatflux_ge_qBG (m : HFModel) (c : HFConfig)
    (hP : 0 ≤ Psol c.Ptot c.coreRadFrac * c.powerFrac)
    (herfc : ∀ x, 0 ≤ c.erfc x)
    (hfT : ∀ x, 0 ≤ c.fT x)
    (hkappa : 0 ≤ c.kappa)
    (hLc : ∀ l ∈ c.Lc, (0 : ℚ) ≤ l)
    (i : ℕ) :
    c.qBG ≤ (heatflux m c).getD i c.qBG := by
  have hPP : 0 ≤ Psol c.Ptot c.coreRadFrac * c.powerFrac := hP
  have key : ∀ v ∈ heatflux m c, c.qBG ≤ v := by
    cases m with
    | layer =>
        show ∀ v ∈ List.zipWith _ (isGoodPoint c.psimin)
          (getq_layer c.mapR c.erfc c.psimin c.Lc c.Lcmin c.lq c.S
            ((c.lcfs : ℚ) : ℝ) c.HFS), c.qBG ≤ v
        exact assemble_ge _ _ _ _
          (scale_layer_nonneg c.mapR c.erfc c.simps c.Rgrid c.psiNgrid c.lamPsimin
            c.lq c.S _ ((c.lcfs : ℚ) : ℝ) c.HFS c.psiSep c.psiAxis hPP)
          (getq_layer_nonneg c.mapR c.erfc c.psimin c.Lc c.Lcmin c.lq c.S
            ((c.lcfs : ℚ) : ℝ) c.HFS herfc)
    | conduct =>
        have hL : 0 ≤ meanList ((c.psimin.zip c.Lc).filterMap
            (fun pl => if c.lcfs < pl.1 then some ((pl.2 : ℚ) : ℝ) else none)) * 1e3 := by
          refine mul_nonneg (meanList_nonneg _ ?_) (by norm_num)
          intro w hw
          rcases List.mem_filterMap.mp hw with ⟨pl, hpl, hf⟩
          by_cases hc : c.lcfs < pl.1
          · rw [if_pos hc] at hf
            have : ((pl.2 : ℚ) : ℝ) = w := Option.some_injective ℝ hf
            rw [← this]
            exact_mod_cast hLc pl.2 (List.of_mem_zip hpl).2
          · rw [if_neg hc] at hf
            exact absurd hf (Option.some_ne_none w).symm
        show ∀ v ∈ List.zipWith _ (isGoodPoint c.psimin)
          (getq_conduct c.fT c.lcfs c.psimin (isPFR c.psimin c.Lc c.Lcmin) c.kappa 0
            (meanList ((c.psimin.zip c.Lc).filterMap
              (fun pl => if c.lcfs < pl.1 then some ((pl.2 : ℚ) : ℝ) else none)) * 1e3)
            (c.lq / c.S)), c.qBG ≤ v
        exact assemble_ge _ _ _ _
          (scale_conduct_nonneg c.simps c.fT c.psiSep c.psiAxis _ c.kappa _ _ hPP)
          (getq_conduct_nonneg c.fT c.lcfs c.psimin _ c.kappa _ _ hfT hkappa hL)
  rcases lt_or_ge i (heatflux m c).length with hi | hi
  · rw [List.getD_eq_getElem _ _ hi]
    exact key _ (List.getElem_mem hi)
  · have he : (heatflux m c).getD i c.qBG = c.qBG := by
      simp [List.getD, List.getElem?_eq_none hi]
    rw [he]

/-- C4 witness: on the concrete configuration `cW` (conductive model, one
sentinel point, `qBG = 5`, zero interpolants) the hypotheses hold and the
entry at index 0 is at least `qBG`. -/
theorem heatflux_ge_qBG_witness :
    (0 : ℝ) ≤ Psol cW.Ptot cW.coreRadFrac * cW.powerFrac ∧
    cW.qBG ≤ (heatflux HFModel.conduct cW).getD 0 cW.qBG :=
  ⟨by simp [cW, Psol],
   heatflux_ge_qBG HFModel.conduct cW (by simp [cW, Psol]) (fun x => le_rfl)
     (fun x => le_rfl) le_rfl (by simp [cW]) 0⟩

end HEAT
